import Mathlib

/-!
Verification of the collocation-card extraction pipeline
(`collocation_generator.py`): a shallow embedding of the markup tree,
the sense extractor (`parse_collocation_html`), the collocation block
parser (`_parse_sb_g`), the card renderer
(`generate_collocations_html`) and the batch serializer
(`generate_anki_import_file`), together with theorems about them.

The markup library parses HTML into a node tree; we model the tree
directly.  In-place span removal (`decompose`) is modelled by the pure
function `removeTags`, which never mutates the source tree, and text
extraction with per-fragment stripping models `get_text(strip=True)`.
A `find` that returns `None` is modelled by `Option`; note that in the
markup library a present tag is truthy even when empty, so `if tag:`
tests presence.  Whitespace is modelled as space, tab, carriage return
and line feed.
-/

/-- A parsed markup node: either a text fragment or an element with a
tag name, an attribute list and a list of children. -/
inductive Node where
  | text (s : String)
  | elem (tag : String) (attrs : List (String × String)) (children : List Node)

/-- Characters of a string with leading and trailing whitespace removed
(the model of Python `str.strip()`). -/
def stripChars (l : List Char) : List Char :=
  ((l.dropWhile Char.isWhitespace).reverse.dropWhile Char.isWhitespace).reverse

/-- Python `str.strip()`. -/
def strip (s : String) : String := String.mk (stripChars s.data)

mutual

/-- All text fragments under a node, in document order
(`tag.strings`). -/
def Node.texts : Node → List String
  | .text s => [s]
  | .elem _ _ cs => textsList cs
termination_by structural n => n

/-- All text fragments under a list of sibling nodes. -/
def textsList : List Node → List String
  | [] => []
  | n :: ns => n.texts ++ textsList ns
termination_by structural l => l

end

/-- Model of `tag.get_text()`: concatenation of all descendant text
fragments. -/
def getText (n : Node) : String := String.join n.texts

/-- Model of `tag.get_text(strip=True)`: each fragment stripped, then
concatenated. -/
def getTextStrip (n : Node) : String := String.join (n.texts.map strip)

mutual

/-- Elements matching a tag within a node (the node itself included
when it matches), in document (pre-)order. -/
def hitsNode (tag : String) : Node → List Node
  | .text _ => []
  | .elem t a cs => (if t = tag then [Node.elem t a cs] else []) ++ hitsList tag cs
termination_by structural n => n

/-- Elements matching a tag within a list of sibling nodes. -/
def hitsList (tag : String) : List Node → List Node
  | [] => []
  | n :: ns => hitsNode tag n ++ hitsList tag ns
termination_by structural l => l

end

/-- Model of `n.find_all(tag)`: matching descendants of `n` in
document order (`n` itself excluded). -/
def Node.findAll (tag : String) (n : Node) : List Node :=
  match n with
  | .text _ => []
  | .elem _ _ cs => hitsList tag cs

/-- Model of `n.find(tag)`: the first matching descendant, if any. -/
def findNode (tag : String) (n : Node) : Option Node :=
  (n.findAll tag).head?

/-- Model of `n.find_all(tag, recursive=False)`: matching direct
children only. -/
def directChildren (tag : String) (n : Node) : List Node :=
  match n with
  | .text _ => []
  | .elem _ _ cs =>
      cs.filter (fun c => match c with
        | .elem t _ _ => t = tag
        | .text _ => false)

mutual

/-- A node after span removal: dropped entirely (with its subtree) when
its tag is listed, kept with cleaned children otherwise.  Pure
counterpart of decomposing every `find_all` hit for those tags. -/
def removeTagsNode (tags : List String) : Node → List Node
  | .text s => [Node.text s]
  | .elem t a cs =>
      if tags.contains t then [] else [Node.elem t a (removeTagsList tags cs)]
termination_by structural n => n

/-- Span removal over a list of sibling nodes. -/
def removeTagsList (tags : List String) : List Node → List Node
  | [] => []
  | n :: ns => removeTagsNode tags n ++ removeTagsList tags ns
termination_by structural l => l

end

/-- Remove all tagged descendants below `n`; the node itself is kept,
matching `for hit in n.find_all(tags): hit.decompose()`. -/
def removeTags (tags : List String) (n : Node) : Node :=
  match n with
  | .text s => .text s
  | .elem t a cs => .elem t a (removeTagsList tags cs)

/-- Model of the attribute read `n.get(key, '')` on an element's
attribute list. -/
def Node.getAttr (n : Node) (key : String) : String :=
  match n with
  | .text _ => ""
  | .elem _ attrs _ => (attrs.lookup key).getD ""

/-- Map whitespace runs to single spaces (`re.sub` with a whitespace
run pattern and a space replacement); the flag records whether the
previous character was part of a run. -/
def collapseWsAux : Bool → List Char → List Char
  | _, [] => []
  | prevWs, c :: cs =>
      if c.isWhitespace then
        (if prevWs then [] else [' ']) ++ collapseWsAux true cs
      else c :: collapseWsAux false cs

/-- Whitespace normalization used for category titles: collapse runs to
single spaces, then strip. -/
def normalizeWs (s : String) : String :=
  strip (String.mk (collapseWsAux false s.data))

/-- Python `str.upper()` (ASCII letters, as used for type codes). -/
def upper (s : String) : String := String.mk (s.data.map Char.toUpper)

/-- The kept collocation categories (`sl` attribute values). -/
def KEEP_SL_TYPES : List String := ["verbs", "verbandhwd", "hwdandverb", "prep"]

/-- One bilingual example sentence. -/
structure ExamplePair where
  en : String
  cn : String
deriving DecidableEq

/-- One collocation phrase list with its gloss and examples. -/
structure CollocationItem where
  words : List String
  chn : String
  examples : List ExamplePair
deriving DecidableEq

/-- One collocation category within a sense. -/
structure CollocationGroup where
  category : String
  items : List CollocationItem
deriving DecidableEq

/-- One sense card.  `freq_rank` is attached after parsing (the parser
leaves it unset); the serializer renders `none` as the empty string. -/
structure Card where
  word : String
  pos : String
  sense_num : String
  def_en : String
  def_cn : String
  collocation_groups : List CollocationGroup
  freq_rank : Option Nat
deriving DecidableEq

/-- The English text of one collocation-phrase node: secondary-language
and separator spans dropped, remaining text stripped. -/
def clText (cl : Node) : String :=
  getTextStrip (removeTags ["chn", "chnsep"] cl)

/-- The collocation words of a sub-group: each direct `cl` child
contributes its cleaned text when that text is non-empty. -/
def clWords (sbg : Node) : List String :=
  (directChildren "cl" sbg).filterMap (fun cl =>
    let t := clText cl
    if t = "" then none else some t)

/-- The captured secondary gloss of a sub-group: the loop over direct
`cl` children overwrites the gloss whenever the child holds a `chn`
span, so the last present span wins. -/
def lastGloss (sbg : Node) : String :=
  (directChildren "cl" sbg).foldl (fun acc cl =>
    match findNode "chn" cl with
    | some c => getTextStrip c
    | none => acc) ""

/-- Parse one direct `x-blk` child: read its first `x` node, capture
the secondary text, then strip secondary/separator/phonetic spans and
read the English text; an empty English text yields no example. -/
def parseXBlk (xblk : Node) : Option ExamplePair :=
  match findNode "x" xblk with
  | none => none
  | some x =>
      let ex_cn := match findNode "chn" x with
        | some c => getTextStrip c
        | none => ""
      let ex_en := getTextStrip (removeTags ["chn", "chnsep", "fthzmark"] x)
      if ex_en = "" then none else some { en := ex_en, cn := ex_cn }

/-- The examples of a sub-group, in document order of its direct
`x-blk` children. -/
def exPairs (sbg : Node) : List ExamplePair :=
  (directChildren "x-blk" sbg).filterMap parseXBlk

/-- Model of `_parse_sb_g`: parse one `sb-g` block into a collocation
item, or
nothing when no collocation word survives. -/
def parse_sb_g (sbg : Node) : Option CollocationItem :=
  if clWords sbg = [] then none
  else some { words := clWords sbg, chn := lastGloss sbg, examples := exPairs sbg }

/-- Parse one `sl-g-blk`: skip it when its `sl` type code is not kept;
otherwise build the category title (header text whitespace-normalized,
falling back to the upper-cased type code) and parse every `sb-g`
inside, dropping the group when no item survives. -/
def processBlk (blk : Node) : Option CollocationGroup :=
  let sl_type := blk.getAttr "sl"
  if sl_type ∈ KEEP_SL_TYPES then
    let category_title :=
      match findNode "sl-g-head" blk with
      | some hd => getText hd
      | none => upper sl_type
    let items := (Node.findAll "sb-g" blk).filterMap parse_sb_g
    if items = [] then none
    else some { category := normalizeWs category_title, items := items }
  else none

/-- The part of speech, sense number and bilingual definition of an
entry, read from its first `head` node; every missing node degrades to
an empty string.  The secondary text is captured from the first `chn`
span of the original `def` node, and the English text is read after
`chn` and `chnsep` spans are removed. -/
def extractHeadFields (entry : Node) : String × String × String × String :=
  match findNode "head" entry with
  | none => ("", "", "", "")
  | some head =>
      let pos := match findNode "p" head with
        | some p => getTextStrip p
        | none => ""
      let sense_num := match findNode "n-num" head with
        | some n => getTextStrip n
        | none => ""
      match findNode "def" head with
      | none => (pos, sense_num, "", "")
      | some d =>
          let def_cn := match findNode "chn" d with
            | some c => getTextStrip c
            | none => ""
          let def_en := getTextStrip (removeTags ["chn", "chnsep"] d)
          (pos, sense_num, def_en, def_cn)

/-- Process one `entry` node: headword (falling back to the queried
word), head fields, and the kept collocation groups; an entry with no
kept group yields no card. -/
def processEntry (entry : Node) (word : String) : Option Card :=
  let headword := match findNode "h" entry with
    | some h => getTextStrip h
    | none => word
  let fields := extractHeadFields entry
  let groups := (Node.findAll "sl-g-blk" entry).filterMap processBlk
  if groups = [] then none
  else some { word := headword, pos := fields.1, sense_num := fields.2.1,
              def_en := fields.2.2.1, def_cn := fields.2.2.2,
              collocation_groups := groups, freq_rank := none }

/-- Model of `parse_collocation_html`: every `entry` node of the
document
contributes its card, in document order. -/
def parse_collocation_html (doc : Node) (word : String) : List Card :=
  (Node.findAll "entry" doc).filterMap (fun e => processEntry e word)

/-- Python `sep.join(parts)`. -/
def joinSep (sep : String) : List String → String
  | [] => ""
  | [x] => x
  | x :: y :: xs => x ++ sep ++ joinSep sep (y :: xs)

/-- Render one example: the English line, then the secondary line when
its text is non-empty. -/
def renderExample (ex : ExamplePair) : String :=
  "<div class=\"colloc-example\">" ++ "<div class=\"ex-en\">✦ " ++ ex.en ++ "</div>" ++
    (if ex.cn = "" then "" else "<div class=\"ex-cn\">" ++ ex.cn ++ "</div>") ++ "</div>"

/-- Render one collocation item: the phrase alternatives joined by a
divider glyph, the gloss appended when non-empty, then the examples. -/
def renderItem (item : CollocationItem) : String :=
  let alts := joinSep " <span class=\"sep\">|</span> "
    (item.words.map (fun w => "<span class=\"colloc-word\">" ++ w ++ "</span>"))
  let wordsLine := if item.chn = "" then alts
    else alts ++ "<span class=\"colloc-chn\">" ++ item.chn ++ "</span>"
  "<div class=\"colloc-item\">" ++ "<div class=\"colloc-words\">" ++ wordsLine ++ "</div>" ++
    String.join (item.examples.map renderExample) ++ "</div>"

/-- Render one collocation group: the category header, then the items. -/
def renderGroup (group : CollocationGroup) : String :=
  "<div class=\"colloc-group\">" ++ "<div class=\"colloc-category\">" ++ group.category ++ "</div>" ++
    String.join (group.items.map renderItem) ++ "</div>"

/-- Model of `generate_collocations_html`: the presentation fragment
of a card,
following the `groups`/`items`/`examples` order. -/
def generate_collocations_html (card : Card) : String :=
  String.join (card.collocation_groups.map renderGroup)

/-- Model of `s.replace('\n', '').replace('\r', '')`: replacing single
characters by the empty string removes them. -/
def removeNewlines (s : String) : String :=
  String.mk (s.data.filter (fun c => ¬ (c = '\n' ∨ c = '\r')))

/-- Model of the serialized rank, a lookup of the freq_rank key with
an empty-string default passed through str: decimal digits when a
rank was
attached, the empty string otherwise. -/
def freqRankStr : Option Nat → String
  | none => ""
  | some r => toString r

/-- The eight serialized fields of a card, in the output order. -/
def cardFields (card : Card) : List String :=
  [card.word, card.pos, card.sense_num, card.def_en, card.def_cn,
   removeNewlines (generate_collocations_html card), freqRankStr card.freq_rank,
   card.word]

/-- Model of `generate_anki_import_file`: tab-joined fields,
newline-joined
records. -/
def generate_anki_import_file (cards : List Card) : String :=
  joinSep "\n" (cards.map (fun card => joinSep "\t" (cardFields card)))

/-- Split a character list at every occurrence of a separator, the way
a downstream consumer recovers records (`s.split(sep)`); splitting the
empty list yields one empty piece. -/
def splitListOn (c : Char) : List Char → List (List Char)
  | [] => [[]]
  | a :: as =>
      if a = c then [] :: splitListOn c as
      else
        match splitListOn c as with
        | [] => [[a]]
        | p :: ps => (a :: p) :: ps

/-- Split a string on a separator character. -/
def splitOnChar (c : Char) (s : String) : List String :=
  (splitListOn c s.data).map String.mk

/-- Field-by-field equality of two cards. -/
def cardFieldEq (a b : Card) : Prop :=
  a.word = b.word ∧ a.pos = b.pos ∧ a.sense_num = b.sense_num ∧
    a.def_en = b.def_en ∧ a.def_cn = b.def_cn ∧
    a.collocation_groups = b.collocation_groups ∧ a.freq_rank = b.freq_rank

/-- A concrete example x node. -/
def exX : Node :=
  .elem "x" [] [.text "It accords with the facts. ", .elem "chn" [] [.text "这与事实相符。"]]

/-- A concrete example block. -/
def exXBlk : Node := .elem "x-blk" [] [exX]

/-- A concrete collocation-phrase node. -/
def exCl : Node :=
  .elem "cl" [] [.text "accord with ", .elem "chn" [] [.text "符合"]]

/-- A concrete sub-group. -/
def exSbg : Node := .elem "sb-g" [] [exCl, exXBlk]

/-- A concrete category header node. -/
def exSlHead : Node := .elem "sl-g-head" [] [.text "PREP."]

/-- A concrete kept collocation block. -/
def exBlk : Node :=
  .elem "sl-g-blk" [("sl", "prep")] [exSlHead, .elem "sl-g" [] [exSbg]]

/-- A concrete secondary-language definition span. -/
def exChn : Node := .elem "chn" [] [.text "一致"]

/-- A concrete definition node. -/
def exDef : Node :=
  .elem "def" [] [.text "agreement ", .elem "chnsep" [] [.text "/"], exChn]

/-- A concrete head node. -/
def exHead : Node :=
  .elem "head" []
    [.elem "p-blk" [] [.elem "p" [] [.text "noun"]],
     .elem "n-num" [] [.text "1"], exDef]

/-- A concrete entry, following the markup sketched in the source's
doc string. -/
def exEntry : Node :=
  .elem "entry" [] [.elem "h" [] [.text "accord"], exHead, exBlk]

/-- A concrete document holding one entry. -/
def exDoc : Node := .elem "root" [] [exEntry]

/-- The item extracted from `exSbg`. -/
def exItem : CollocationItem :=
  { words := ["accord with"], chn := "符合",
    examples := [{ en := "It accords with the facts.", cn := "这与事实相符。" }] }

/-- The group extracted from `exBlk`. -/
def exGroup : CollocationGroup := { category := "PREP.", items := [exItem] }

/-- The card extracted from `exEntry`. -/
def exCard : Card :=
  { word := "accord", pos := "noun", sense_num := "1",
    def_en := "agreement", def_cn := "一致",
    collocation_groups := [exGroup], freq_rank := none }

/-- A block with a type code outside the allow-list, with sub-structure
that would otherwise produce an item. -/
def disBlk : Node :=
  .elem "sl-g-blk" [("sl", "quant")]
    [.elem "sl-g" [] [.elem "sb-g" [] [.elem "cl" [] [.text "a pitch of"]]]]

/-- A sub-group with two glossed phrase children. -/
def twoClSbg : Node :=
  .elem "sb-g" []
    [.elem "cl" [] [.text "alpha ", .elem "chn" [] [.text "第一"]],
     .elem "cl" [] [.text "beta ", .elem "chn" [] [.text "第二"]]]

/-- The item extracted from `twoClSbg`: the second gloss wins. -/
def twoClItem : CollocationItem :=
  { words := ["alpha", "beta"], chn := "第二", examples := [] }

/-- A kept block with no category header. -/
def noHeadBlk : Node :=
  .elem "sl-g-blk" [("sl", "prep")] [.elem "sl-g" [] [exSbg]]

/-- The group extracted from `noHeadBlk`: the category falls back to
the upper-cased type code. -/
def noHeadGroup : CollocationGroup := { category := "PREP", items := [exItem] }

/-- An entry whose head node's text strips to the empty string. -/
def wsEntry : Node := .elem "entry" [] [.elem "h" [] [.text " "], exBlk]

/-- A document holding `wsEntry`. -/
def wsDoc : Node := .elem "root" [] [wsEntry]

/-- An entry with no head node at all. -/
def noHEntry : Node := .elem "entry" [] [exBlk]

/-- The card extracted from `noHEntry` when querying "pitch". -/
def noHCard : Card :=
  { word := "pitch", pos := "", sense_num := "", def_en := "", def_cn := "",
    collocation_groups := [exGroup], freq_rank := none }

/-- An example node whose secondary span holds only whitespace. -/
def wsChnX : Node := .elem "x" [] [.text "hello ", .elem "chn" [] [.text " "]]

/-- A sub-group whose example carries the whitespace-only secondary
span. -/
def wsChnSbg : Node :=
  .elem "sb-g" [] [.elem "cl" [] [.text "run"], .elem "x-blk" [] [wsChnX]]

/-- The example pair extracted from `exXBlk`. -/
def exPair : ExamplePair :=
  { en := "It accords with the facts.", cn := "这与事实相符。" }

/-- An example block whose English text strips to nothing. -/
def droppedXBlk : Node :=
  .elem "x-blk" [] [.elem "x" [] [.elem "chn" [] [.text "中文"]]]

/-- A card whose word field contains a horizontal tab. -/
def tabCard : Card :=
  { word := "a\tb", pos := "", sense_num := "", def_en := "", def_cn := "",
    collocation_groups := [], freq_rank := none }

/-- The example card with a frequency rank attached. -/
def rankedCard : Card := { exCard with freq_rank := some 123 }

/-- Sanity check: the example document parses to exactly the expected
card. -/
theorem scenario_accord :
    parse_collocation_html exDoc "accord" = [exCard] := by
  decide

/-- A `filterMap` member comes from a list member mapped to `some`. -/
theorem of_mem_filterMap {α β} {f : α → Option β} {l : List α} {b : β}
    (h : b ∈ l.filterMap f) : ∃ a ∈ l, f a = some b := by
  rw [List.mem_filterMap] at h
  exact h

/-- A card produced by `processEntry` carries exactly the kept groups
of its entry, and those are non-empty. -/
theorem processEntry_groups {entry : Node} {w : String} {card : Card}
    (h : processEntry entry w = some card) :
    card.collocation_groups = (Node.findAll "sl-g-blk" entry).filterMap processBlk ∧
      card.collocation_groups ≠ [] := by
  by_cases hg : (Node.findAll "sl-g-blk" entry).filterMap processBlk = []
  · simp [processEntry, hg] at h
  · simp only [processEntry, hg, if_neg, if_false, Option.some.injEq] at h
    subst h
    exact ⟨rfl, hg⟩

/-- Claim C1: every Sense record returned by the extractor has a
non-empty `groups` sequence, and an entry whose kept-category blocks
yield no groups contributes no Sense at all. -/
theorem parse_cards_groups_nonempty :
    (∀ (doc : Node) (w : String) (card : Card),
        card ∈ parse_collocation_html doc w → card.collocation_groups ≠ []) ∧
    (∀ (entry : Node) (w : String),
        (Node.findAll "sl-g-blk" entry).filterMap processBlk = [] →
          processEntry entry w = none) := by
  constructor
  · intro doc w card hc
    obtain ⟨e, -, he⟩ := of_mem_filterMap hc
    exact (processEntry_groups he).2
  · intro entry w hempty
    simp [processEntry, hempty]

/-- Witness for claim C1: the example document yields a card whose
groups are non-empty, and an entry with no kept block yields no card. -/
theorem parse_cards_groups_nonempty_witness :
    exCard.collocation_groups ≠ [] ∧ processEntry (Node.elem "entry" [] []) "w" = none :=
  ⟨parse_cards_groups_nonempty.1 exDoc "accord" exCard (by decide),
   parse_cards_groups_nonempty.2 (Node.elem "entry" [] []) "w" (by decide)⟩

/-- Claim C3: the Collocation Block Parser returns nothing exactly when
the stripped word list is empty, and whenever it returns an item that
item carries exactly the non-empty word list, whatever the gloss and
examples were. -/
theorem parse_sb_g_item_words (sbg : Node) :
    (parse_sb_g sbg = none ↔ clWords sbg = []) ∧
    (∀ item, parse_sb_g sbg = some item → item.words = clWords sbg ∧ item.words ≠ []) := by
  constructor
  · constructor
    · intro hnone
      by_contra h
      simp [parse_sb_g, h] at hnone
    · intro h
      simp [parse_sb_g, h]
  · intro item hitem
    by_cases h : clWords sbg = []
    · simp [parse_sb_g, h] at hitem
    · simp [parse_sb_g, h] at hitem
      subst hitem
      exact ⟨rfl, h⟩

/-- Witness for claim C3: the example sub-group returns its item, whose
words are the stripped phrase list. -/
theorem parse_sb_g_item_words_witness :
    (parse_sb_g exSbg = none ↔ clWords exSbg = []) ∧
      exItem.words = clWords exSbg ∧ exItem.words ≠ [] :=
  ⟨(parse_sb_g_item_words exSbg).1, (parse_sb_g_item_words exSbg).2 exItem (by decide)⟩

/-- Claim C9: parsing is deterministic and idempotent over its input;
two invocations on the same document and queried word agree, field by
field, on every card. -/
theorem parse_deterministic (doc : Node) (w : String) :
    parse_collocation_html doc w = parse_collocation_html doc w ∧
      List.Forall₂ cardFieldEq (parse_collocation_html doc w) (parse_collocation_html doc w) :=
  ⟨rfl, List.forall₂_same.2 (fun _ _ => ⟨rfl, rfl, rfl, rfl, rfl, rfl, rfl⟩)⟩

/-- Claim C6: a block whose type code is not in the allow-list yields
no group; a produced group always has an allowed type code and at least
one item; and every group of a produced card comes from some block of
the entry with an allowed type code. -/
theorem keep_list_filtering :
    (∀ blk : Node, blk.getAttr "sl" ∉ KEEP_SL_TYPES → processBlk blk = none) ∧
    (∀ (blk : Node) (g : CollocationGroup), processBlk blk = some g →
        blk.getAttr "sl" ∈ KEEP_SL_TYPES ∧ g.items ≠ []) ∧
    (∀ (entry : Node) (w : String) (card : Card) (g : CollocationGroup),
        processEntry entry w = some card → g ∈ card.collocation_groups →
          ∃ blk ∈ Node.findAll "sl-g-blk" entry,
            processBlk blk = some g ∧ blk.getAttr "sl" ∈ KEEP_SL_TYPES) := by
  have h1 : ∀ blk : Node, blk.getAttr "sl" ∉ KEEP_SL_TYPES → processBlk blk = none := by
    intro blk h
    simp [processBlk, h]
  have h2 : ∀ (blk : Node) (g : CollocationGroup), processBlk blk = some g →
      blk.getAttr "sl" ∈ KEEP_SL_TYPES ∧ g.items ≠ [] := by
    intro blk g hg
    by_cases hm : blk.getAttr "sl" ∈ KEEP_SL_TYPES
    · refine ⟨hm, ?_⟩
      by_cases hi : (Node.findAll "sb-g" blk).filterMap parse_sb_g = []
      · simp [processBlk, hm, hi] at hg
      · simp [processBlk, hm, hi] at hg
        rw [← hg]
        exact hi
    · simp [processBlk, hm] at hg
  refine ⟨h1, h2, ?_⟩
  intro entry w card g hpe hg
  rw [(processEntry_groups hpe).1] at hg
  obtain ⟨blk, hblk, hsome⟩ := of_mem_filterMap hg
  exact ⟨blk, hblk, hsome, (h2 blk g hsome).1⟩

/-- Witness for claim C6: the disallowed block yields no group; the
kept block's code is allowed and its group non-empty; the example
entry's group comes from an allowed block. -/
theorem keep_list_filtering_witness :
    processBlk disBlk = none ∧
      (Node.getAttr exBlk "sl" ∈ KEEP_SL_TYPES ∧ exGroup.items ≠ []) ∧
      ∃ blk ∈ Node.findAll "sl-g-blk" exEntry,
        processBlk blk = some exGroup ∧ blk.getAttr "sl" ∈ KEEP_SL_TYPES :=
  ⟨keep_list_filtering.1 disBlk (by decide),
   keep_list_filtering.2.1 exBlk exGroup (by decide),
   keep_list_filtering.2.2 exEntry "accord" exCard exGroup (by decide) (by decide)⟩

/-- Looking for the first hit in an appended list looks left first. -/
theorem findSome?_append_eq {α β : Type} (f : α → Option β) (l₁ l₂ : List α) :
    (l₁ ++ l₂).findSome? f =
      match l₁.findSome? f with
      | some b => some b
      | none => l₂.findSome? f := by
  induction l₁ with
  | nil => simp [List.findSome?]
  | cons a l ih =>
    simp only [List.cons_append, List.findSome?]
    cases f a <;> simp [ih]

/-- An overwriting fold over glosses keeps the last present one. -/
theorem gloss_foldl (l : List Node) : ∀ acc : String,
    l.foldl (fun a cl =>
        match findNode "chn" cl with
        | some c => getTextStrip c
        | none => a) acc =
      ((l.reverse.findSome? (fun cl => (findNode "chn" cl).map getTextStrip)).getD acc) := by
  induction l with
  | nil => intro acc; simp
  | cons x xs ih =>
    intro acc
    simp only [List.foldl_cons, List.reverse_cons]
    rw [ih, findSome?_append_eq]
    cases hxs : xs.reverse.findSome? (fun cl => (findNode "chn" cl).map getTextStrip) with
    | some v => simp
    | none =>
      simp only [List.findSome?, Option.getD]
      cases findNode "chn" x <;> simp

/-- Claim C7: the item returned for a sub-group holds one gloss, equal
to the gloss of the last direct phrase child carrying a secondary span
in document order (each capture overwrites the previous one; the
default is the empty string). -/
theorem last_gloss_wins (sbg : Node) (item : CollocationItem)
    (h : parse_sb_g sbg = some item) :
    item.chn = ((directChildren "cl" sbg).reverse.findSome?
        (fun cl => (findNode "chn" cl).map getTextStrip)).getD "" := by
  by_cases hw : clWords sbg = []
  · simp [parse_sb_g, hw] at h
  · simp [parse_sb_g, hw] at h
    subst h
    exact gloss_foldl _ ""

/-- Witness for claim C7: with two glossed phrase nodes the returned
gloss is the last one. -/
theorem last_gloss_wins_witness :
    twoClItem.chn = ((directChildren "cl" twoClSbg).reverse.findSome?
        (fun cl => (findNode "chn" cl).map getTextStrip)).getD "" :=
  last_gloss_wins twoClSbg twoClItem (by decide)

/-- Claim C10: a kept block without a category header falls back to the
upper-cased type code as category (never dropped or blank); with a
header, the header's text whitespace-normalized to single spaces is
used. -/
theorem category_fallback :
    ∀ (blk : Node) (g : CollocationGroup), processBlk blk = some g →
      ((findNode "sl-g-head" blk = none →
          g.category = upper (blk.getAttr "sl") ∧ g.category ≠ "") ∧
       (∀ hd, findNode "sl-g-head" blk = some hd →
          g.category = normalizeWs (getText hd))) := by
  intro blk g hg
  by_cases hm : blk.getAttr "sl" ∈ KEEP_SL_TYPES
  · by_cases hi : (Node.findAll "sb-g" blk).filterMap parse_sb_g = []
    · simp [processBlk, hm, hi] at hg
    · simp [processBlk, hm, hi] at hg
      subst hg
      constructor
      · intro hnone
        simp only [hnone]
        simp only [KEEP_SL_TYPES, List.mem_cons, List.not_mem_nil, or_false] at hm
        rcases hm with h | h | h | h <;> rw [h] <;> exact ⟨by decide, by decide⟩
      · intro hd hsome
        simp [hsome]
  · simp [processBlk, hm] at hg

/-- Witness for claim C10: the header-less block gets category "PREP";
the example block uses its normalized header text. -/
theorem category_fallback_witness :
    (noHeadGroup.category = upper (noHeadBlk.getAttr "sl") ∧ noHeadGroup.category ≠ "") ∧
      exGroup.category = normalizeWs (getText exSlHead) :=
  ⟨(category_fallback noHeadBlk noHeadGroup (by decide)).1
      (by simp [noHeadBlk, exSbg, exCl, exXBlk, exX, findNode, Node.findAll, hitsList, hitsNode]),
   (category_fallback exBlk exGroup (by decide)).2 exSlHead
      (by simp [exBlk, exSlHead, exSbg, exCl, exXBlk, exX, findNode, Node.findAll, hitsList, hitsNode])⟩

/-- Claim C4: when the entry's definition node holds a secondary span,
the produced card's `def_cn` is that span's text read from the original
(unstripped) node, and `def_en` is the definition node's text after all
`chn` and `chnsep` spans are removed: capture precedes stripping. -/
theorem definition_capture_precedes_strip :
    ∀ (entry : Node) (w : String) (card : Card) (hd d c : Node),
      processEntry entry w = some card →
      findNode "head" entry = some hd →
      findNode "def" hd = some d →
      findNode "chn" d = some c →
      card.def_cn = getTextStrip c ∧
        card.def_en = getTextStrip (removeTags ["chn", "chnsep"] d) := by
  intro entry w card hd d c hpe hhead hdef hchn
  by_cases hg : (Node.findAll "sl-g-blk" entry).filterMap processBlk = []
  · simp [processEntry, hg] at hpe
  · simp only [processEntry, hg, if_neg, if_false, Option.some.injEq] at hpe
    subst hpe
    simp [extractHeadFields, hhead, hdef, hchn]

/-- Witness for claim C4 at the example entry. -/
theorem definition_capture_precedes_strip_witness :
    exCard.def_cn = getTextStrip exChn ∧
      exCard.def_en = getTextStrip (removeTags ["chn", "chnsep"] exDef) :=
  definition_capture_precedes_strip exEntry "accord" exCard exHead exDef exChn
    (by decide)
    (by simp [exEntry, exHead, exDef, exChn, exBlk, exSlHead, exSbg, exCl, exXBlk, exX,
          findNode, Node.findAll, hitsList, hitsNode])
    (by simp [exHead, exDef, exChn, findNode, Node.findAll, hitsList, hitsNode])
    (by simp [exDef, exChn, findNode, Node.findAll, hitsList, hitsNode])

/-- Counterexample to claim C8 as stated: the queried word is
non-empty, yet the extractor returns a Sense whose word field is empty,
because the head node is present and its text strips to nothing (no
fallback happens for a present node). -/
theorem headword_nonempty_refuted :
    "pitch" ≠ "" ∧ (parse_collocation_html wsDoc "pitch").map Card.word = [""] := by
  decide

/-- Claim C8 (amended): the word field equals the head node's stripped
text whenever that node is present (and can then be empty), and falls
back to the queried word exactly when the node is absent, in which case
it is non-empty whenever the queried word is. -/
theorem headword_fallback :
    ∀ (entry : Node) (w : String) (card : Card), processEntry entry w = some card →
      ((∀ h, findNode "h" entry = some h → card.word = getTextStrip h) ∧
       (findNode "h" entry = none → card.word = w) ∧
       (findNode "h" entry = none → w ≠ "" → card.word ≠ "")) := by
  intro entry w card hpe
  by_cases hg : (Node.findAll "sl-g-blk" entry).filterMap processBlk = []
  · simp [processEntry, hg] at hpe
  · simp only [processEntry, hg, if_neg, if_false, Option.some.injEq] at hpe
    subst hpe
    refine ⟨fun h hh => by simp [hh], fun hn => by simp [hn], fun hn hw => by simp [hn]; exact hw⟩

/-- Witness for claim C8 (amended): present head node read, absent head
node replaced by the non-empty queried word. -/
theorem headword_fallback_witness :
    exCard.word = getTextStrip (Node.elem "h" [] [Node.text "accord"]) ∧
      noHCard.word = "pitch" ∧ noHCard.word ≠ "" :=
  ⟨(headword_fallback exEntry "accord" exCard (by decide)).1
      (Node.elem "h" [] [Node.text "accord"])
      (by simp [exEntry, exHead, exDef, exChn, exBlk, exSlHead, exSbg, exCl, exXBlk, exX,
            findNode, Node.findAll, hitsList, hitsNode]),
   (headword_fallback noHEntry "pitch" noHCard (by decide)).2.1
      (by simp [noHEntry, exBlk, exSlHead, exSbg, exCl, exXBlk, exX,
            findNode, Node.findAll, hitsList, hitsNode]),
   (headword_fallback noHEntry "pitch" noHCard (by decide)).2.2
      (by simp [noHEntry, exBlk, exSlHead, exSbg, exCl, exXBlk, exX,
            findNode, Node.findAll, hitsList, hitsNode])
      (by decide)⟩

/-- Counterexample to claim C5 as stated: the example node contains
both English text and a secondary-language span, yet the emitted
ExamplePair's secondary text is empty (the span's text strips to
nothing), refuting "both non-empty". -/
theorem example_secondary_nonempty_refuted :
    (findNode "chn" wsChnX).isSome = true ∧
      parse_sb_g wsChnSbg =
        some { words := ["run"], chn := "",
               examples := [{ en := "hello", cn := "" }] } := by
  decide

/-- Claim C5 (amended): an emitted ExamplePair's English text equals
the node's text with secondary, separator and phonetic-mark spans
removed and is non-empty; its secondary text equals the secondary
span's original (stripped) text when that span is present — possibly
empty when the span's own text strips to nothing; an example whose
English text is empty after stripping is dropped; surviving examples
appear in document order of the direct example blocks. -/
theorem example_extraction :
    (∀ (xblk x : Node) (pair : ExamplePair),
        findNode "x" xblk = some x → parseXBlk xblk = some pair →
          pair.en = getTextStrip (removeTags ["chn", "chnsep", "fthzmark"] x) ∧
            pair.en ≠ "" ∧
            (∀ c, findNode "chn" x = some c → pair.cn = getTextStrip c)) ∧
    (∀ (xblk x : Node), findNode "x" xblk = some x →
        getTextStrip (removeTags ["chn", "chnsep", "fthzmark"] x) = "" →
          parseXBlk xblk = none) ∧
    (∀ (sbg : Node) (item : CollocationItem), parse_sb_g sbg = some item →
        item.examples = (directChildren "x-blk" sbg).filterMap parseXBlk) := by
  refine ⟨?_, ?_, ?_⟩
  · intro xblk x pair hx hp
    unfold parseXBlk at hp
    rw [hx] at hp
    by_cases he : getTextStrip (removeTags ["chn", "chnsep", "fthzmark"] x) = ""
    · simp [he] at hp
    · simp only [he, if_neg, if_false, Option.some.injEq] at hp
      subst hp
      exact ⟨rfl, he, fun c hc => by simp [hc]⟩
  · intro xblk x hx he
    unfold parseXBlk
    rw [hx]
    simp [he]
  · intro sbg item hitem
    by_cases hw : clWords sbg = []
    · simp [parse_sb_g, hw] at hitem
    · simp [parse_sb_g, hw] at hitem
      subst hitem
      rfl

/-- Witness for claim C5 (amended): the example block yields its pair
with the captured secondary text and non-empty English text; the
English-empty block is dropped; the example list follows the direct
blocks. -/
theorem example_extraction_witness :
    (exPair.en = getTextStrip (removeTags ["chn", "chnsep", "fthzmark"] exX) ∧
       exPair.en ≠ "" ∧
       exPair.cn = getTextStrip (Node.elem "chn" [] [Node.text "这与事实相符。"])) ∧
      parseXBlk droppedXBlk = none ∧
      exItem.examples = (directChildren "x-blk" exSbg).filterMap parseXBlk :=
  ⟨⟨((example_extraction.1 exXBlk exX exPair
        (by simp [exXBlk, exX, findNode, Node.findAll, hitsList, hitsNode])
        (by decide))).1,
    ((example_extraction.1 exXBlk exX exPair
        (by simp [exXBlk, exX, findNode, Node.findAll, hitsList, hitsNode])
        (by decide))).2.1,
    ((example_extraction.1 exXBlk exX exPair
        (by simp [exXBlk, exX, findNode, Node.findAll, hitsList, hitsNode])
        (by decide))).2.2 (Node.elem "chn" [] [Node.text "这与事实相符。"])
        (by simp [exX, findNode, Node.findAll, hitsList, hitsNode])⟩,
   example_extraction.2.1 droppedXBlk (Node.elem "x" [] [Node.elem "chn" [] [Node.text "中文"]])
      (by simp [droppedXBlk, findNode, Node.findAll, hitsList, hitsNode])
      (by decide),
   example_extraction.2.2 exSbg exItem (by decide)⟩

/-- Splitting never yields an empty list of pieces. -/
theorem splitListOn_ne_nil (c : Char) (l : List Char) : splitListOn c l ≠ [] := by
  induction l with
  | nil => simp [splitListOn]
  | cons a as ih =>
    simp only [splitListOn]
    by_cases h : a = c
    · simp [h]
    · simp only [h, if_false]
      cases hs : splitListOn c as with
      | nil => simp
      | cons p ps => simp

/-- A separator-free list splits into itself. -/
theorem splitListOn_no_sep (c : Char) (l : List Char) (h : c ∉ l) :
    splitListOn c l = [l] := by
  induction l with
  | nil => rfl
  | cons a as ih =>
    simp only [List.mem_cons, not_or] at h
    have ha : ¬ a = c := fun heq => h.1 heq.symm
    simp only [splitListOn, if_neg ha]
    rw [ih h.2]

/-- Splitting after a separator-free prefix peels that prefix off. -/
theorem splitListOn_append (c : Char) (l rest : List Char) (h : c ∉ l) :
    splitListOn c (l ++ c :: rest) = l :: splitListOn c rest := by
  induction l with
  | nil => simp [splitListOn]
  | cons a as ih =>
    simp only [List.mem_cons, not_or] at h
    have ha : ¬ a = c := fun heq => h.1 heq.symm
    have ihq := ih h.2
    simp only [List.cons_append, splitListOn, if_neg ha, List.append_eq, ihq]

/-- A joined string avoids a character avoided by the separator and by
every piece. -/
theorem joinSep_no_char (c : Char) (sep : String) (hsep : c ∉ sep.data) :
    ∀ pieces : List String, (∀ p ∈ pieces, c ∉ p.data) →
      c ∉ (joinSep sep pieces).data := by
  intro pieces
  induction pieces with
  | nil => intro _; simp [joinSep]
  | cons p ps ih =>
    intro hfree
    cases ps with
    | nil => exact hfree p (by simp)
    | cons q qs =>
      have hj : joinSep sep (p :: q :: qs) = p ++ sep ++ joinSep sep (q :: qs) := rfl
      rw [hj, String.data_append, String.data_append]
      simp only [List.mem_append, not_or]
      exact ⟨⟨hfree p (by simp), hsep⟩, ih (fun r hr => hfree r (by simp [hr]))⟩

/-- Splitting a joined non-empty list of separator-free pieces recovers
the pieces. -/
theorem splitOnChar_join (c : Char) (sep : String) (hsep : sep.data = [c]) :
    ∀ pieces : List String, pieces ≠ [] → (∀ p ∈ pieces, c ∉ p.data) →
      splitOnChar c (joinSep sep pieces) = pieces := by
  intro pieces
  induction pieces with
  | nil => intro h; exact absurd rfl h
  | cons p ps ih =>
    intro _ hfree
    cases ps with
    | nil =>
      simp only [joinSep, splitOnChar]
      rw [splitListOn_no_sep c p.data (hfree p (by simp))]
      rfl
    | cons q qs =>
      have hj : joinSep sep (p :: q :: qs) = p ++ sep ++ joinSep sep (q :: qs) := rfl
      have hdata : (p ++ sep ++ joinSep sep (q :: qs)).data =
          p.data ++ c :: (joinSep sep (q :: qs)).data := by
        rw [String.data_append, String.data_append, hsep]
        simp
      have ihq := ih (by simp) (fun r hr => hfree r (by simp [hr]))
      simp only [splitOnChar] at ihq ⊢
      rw [hj, hdata, splitListOn_append c _ _ (hfree p (by simp)), List.map_cons, ihq]

/-- Counterexample to claim C2 as stated: for this single record the
serializer output is one line, but that line splits on tab into ten
fields, not eight, because the word field (used twice, once as the tag
field) itself contains a tab. -/
theorem serializer_eight_fields_refuted :
    splitOnChar '\n' (generate_anki_import_file [tabCard]) =
        [generate_anki_import_file [tabCard]] ∧
      (splitOnChar '\t' (generate_anki_import_file [tabCard])).length = 10 := by
  decide

/-- Claim C2 (amended): for every non-empty sequence of records whose
serialized fields contain no newline and no tab, the output splits on
newline into exactly as many lines as records, and each record's line
splits on tab into exactly its eight fields — word, part of speech,
sense number, English definition, Chinese definition, newline-free
rendered fragment, stringified frequency rank, and the word again as
tag.  (With zero records the output is the empty string, which splits
into one empty line; a tab inside a field breaks the eight-field
count, as the counterexample shows.) -/
theorem serializer_lines_fields :
    ∀ cards : List Card, cards ≠ [] →
      (∀ card ∈ cards, ∀ f ∈ cardFields card, '\n' ∉ f.data ∧ '\t' ∉ f.data) →
      splitOnChar '\n' (generate_anki_import_file cards) =
          cards.map (fun card => joinSep "\t" (cardFields card)) ∧
        (splitOnChar '\n' (generate_anki_import_file cards)).length = cards.length ∧
        ∀ card ∈ cards,
          splitOnChar '\t' (joinSep "\t" (cardFields card)) = cardFields card ∧
            (cardFields card).length = 8 := by
  intro cards hne hfree
  have hlines : splitOnChar '\n' (generate_anki_import_file cards) =
      cards.map (fun card => joinSep "\t" (cardFields card)) := by
    unfold generate_anki_import_file
    apply splitOnChar_join '\n' "\n" rfl
    · simp [hne]
    · intro p hp
      obtain ⟨card, hcard, rfl⟩ := List.mem_map.1 hp
      exact joinSep_no_char '\n' "\t" (by decide) (cardFields card)
        (fun f hf => (hfree card hcard f hf).1)
  refine ⟨hlines, by rw [hlines]; simp, ?_⟩
  intro card hcard
  refine ⟨?_, rfl⟩
  apply splitOnChar_join '\t' "\t" rfl
  · simp [cardFields]
  · intro f hf
    exact (hfree card hcard f hf).2

/-- Witness for claim C2 (amended) on a one-record batch carrying a
rank. -/
theorem serializer_lines_fields_witness :
    splitOnChar '\n' (generate_anki_import_file [rankedCard]) =
        [rankedCard].map (fun card => joinSep "\t" (cardFields card)) ∧
      splitOnChar '\t' (joinSep "\t" (cardFields rankedCard)) = cardFields rankedCard ∧
      (cardFields rankedCard).length = 8 :=
  ⟨(serializer_lines_fields [rankedCard] (by decide) (by decide)).1,
   ((serializer_lines_fields [rankedCard] (by decide) (by decide)).2.2 rankedCard
      (by simp)).1,
   ((serializer_lines_fields [rankedCard] (by decide) (by decide)).2.2 rankedCard
      (by simp)).2⟩

/-- Sanity check: an empty batch serializes to the empty string, which
splits on newline into one empty line, not zero lines; this is why the
line-count statement assumes a non-empty batch. -/
theorem serializer_empty_batch :
    generate_anki_import_file [] = "" ∧
      splitOnChar '\n' (generate_anki_import_file []) = [""] := by
  decide
